import Mathlib

set_option maxHeartbeats 1000000

/-!
Verification development for the RoriCode orchestration core
(`internal/core/state.go`, `internal/core/service.go`,
`internal/eventbus/bus.go`, `internal/tools` registry).

The Go code is shallowly embedded: every struct becomes a Lean structure,
every method a pure function that returns the updated state (the Go methods
mutate under a mutex; here each method is one atomic transition, which is
exactly the granularity the mutex enforces).  Machine integers that the code
only increments or resets are modelled as `Int` where signedness matters
(`recursionDepth`) and `Nat` where the code only counts up (`failureCount`,
channel sizes).  `time.Time` / `time.Duration` are modelled as `Nat` ticks.
-/

namespace RoriCode

/-! ### Data model: messages (`internal/models/message.go`, go-openai types) -/

/-- Role of an `openai.ChatCompletionMessage` (`user`, `assistant`, `tool`, `system`). -/
inductive Role where
  | user
  | assistant
  | tool
  | system
deriving DecidableEq, Repr

/-- An `openai.ToolCall` as used by the code: `{ID, Function.Name, Function.Arguments}`. -/
structure ToolCallRef where
  id : String
  name : String
  arguments : String
deriving DecidableEq, Repr

/-- An `openai.ChatCompletionMessage` restricted to the fields the code reads:
role, content, tool-call id (for `tool`-role messages) and the tool-call list
(for `assistant`-role messages). -/
structure ChatCompletionMessage where
  role : Role
  content : String
  toolCallId : String := ""
  toolCalls : List ToolCallRef := []
deriving DecidableEq, Repr

/-- `models.MessageType`. -/
inductive MessageType where
  | user
  | assistant
  | program
  | toolCall
  | toolResult
deriving DecidableEq, Repr

/-- `models.Message`. -/
structure Message where
  content : String
  type : MessageType
  toolCallID : String := ""
  toolName : String := ""
  toolArgs : String := ""
deriving DecidableEq, Repr

/-! ### ChatState (`internal/core/state.go`)

`pendingToolCalls` is a Go `map[string]bool` whose values are always `true`;
it is the key set that matters, so it is embedded as a `Finset String`.
`recursionDepth` is a Go `int`, embedded as `Int` so that the lower bound of
the depth invariant is a real statement.  `lastError` is a Go `error`,
embedded as `Option String`. -/

structure ChatState where
  chatHistory : List ChatCompletionMessage
  programMessages : List Message
  isProcessing : Bool
  lastError : Option String
  conversationReady : Bool
  pendingToolCalls : Finset String
  recursionDepth : Int
  maxRecursionDepth : Int
deriving DecidableEq

/-- `NewChatState` (state.go): empty history, not processing, no pending calls,
depth 0, max depth 5. -/
def newChatState : ChatState where
  chatHistory := []
  programMessages := []
  isProcessing := false
  lastError := none
  conversationReady := true
  pendingToolCalls := ∅
  recursionDepth := 0
  maxRecursionDepth := 5

/-- `ChatState.AddProgramMessage`. -/
def ChatState.addProgramMessage (cs : ChatState) (content : String) : ChatState :=
  { cs with programMessages :=
      cs.programMessages ++ [{ content := content, type := .program }] }

/-- `ChatState.StartProcessingWithUserMessage`: atomically set `isProcessing`,
clear `lastError`, append the user message to the chat history. -/
def ChatState.startProcessingWithUserMessage (cs : ChatState) (content : String) : ChatState :=
  { cs with
      isProcessing := true
      lastError := none
      chatHistory := cs.chatHistory ++ [{ role := .user, content := content }] }

/-- `ChatState.FinishProcessingWithError`. -/
def ChatState.finishProcessingWithError (cs : ChatState) (err : String) : ChatState :=
  { cs with isProcessing := false, lastError := some err }

/-- `ChatState.FinishProcessing`. -/
def ChatState.finishProcessing (cs : ChatState) : ChatState :=
  { cs with isProcessing := false, lastError := none }

/-- `ChatState.AddToolResultMessage`: append a `tool`-role message carrying the
call id and the rendered result. -/
def ChatState.addToolResultMessage (cs : ChatState) (callID toolName result : String) : ChatState :=
  { cs with chatHistory :=
      cs.chatHistory ++ [{ role := .tool, content := result, toolCallId := callID }] }

/-- `ChatState.AddAssistantMessageWithToolCalls`: one atomic log entry holding
both the assistant text and the tool-call references. -/
def ChatState.addAssistantMessageWithToolCalls (cs : ChatState) (content : String)
    (toolCalls : List ToolCallRef) : ChatState :=
  { cs with chatHistory :=
      cs.chatHistory ++ [{ role := .assistant, content := content, toolCalls := toolCalls }] }

/-- `ChatState.AddPendingToolCall`: `pendingToolCalls[callID] = true`. -/
def ChatState.addPendingToolCall (cs : ChatState) (callID : String) : ChatState :=
  { cs with pendingToolCalls := insert callID cs.pendingToolCalls }

/-- `ChatState.CompletePendingToolCall`: `delete(pendingToolCalls, callID)` then
return `len(pendingToolCalls) == 0`.  The returned pair is (updated state,
returned boolean). -/
def ChatState.completePendingToolCall (cs : ChatState) (callID : String) : ChatState × Bool :=
  let cs2 : ChatState := { cs with pendingToolCalls := cs.pendingToolCalls.erase callID }
  (cs2, cs2.pendingToolCalls.card == 0)

/-- `ChatState.HasPendingToolCalls`. -/
def ChatState.hasPendingToolCalls (cs : ChatState) : Bool :=
  0 < cs.pendingToolCalls.card

/-- `ChatState.CanRecurse`: `recursionDepth < maxRecursionDepth`. -/
def ChatState.canRecurse (cs : ChatState) : Bool :=
  cs.recursionDepth < cs.maxRecursionDepth

/-- `ChatState.IncrementRecursion`. -/
def ChatState.incrementRecursion (cs : ChatState) : ChatState :=
  { cs with recursionDepth := cs.recursionDepth + 1 }

/-- `ChatState.ResetRecursion`. -/
def ChatState.resetRecursion (cs : ChatState) : ChatState :=
  { cs with recursionDepth := 0 }

/-! ### The fan-in barrier, sequentialized

`handleToolResult` (service.go) runs once per dispatched call: it records the
result message, then calls `CompletePendingToolCall` and recurses into
`continueConversation` exactly when that call returned `true`.  Each
`CompletePendingToolCall` runs under the state mutex, so the concurrent
completions of one round linearize into some order of the call ids;
`completionSignals` is the sequence of booleans returned along one such
linearization. -/

/-- Booleans returned by `CompletePendingToolCall` along a completion order. -/
def completionSignals : ChatState → List String → List Bool
  | _, [] => []
  | cs, id :: rest =>
    let out := cs.completePendingToolCall id
    out.2 :: completionSignals out.1 rest

/-- Number of times `handleToolResult` observes `allComplete = true` along a
completion order, i.e. the number of `continueAfterAllToolsComplete`
(hence `continueConversation`) invocations triggered by that round. -/
def continuationCount (cs : ChatState) (order : List String) : Nat :=
  (completionSignals cs order).count true

/-! ### CircuitBreaker (`internal/eventbus/bus.go`)

`time.Time` and `time.Duration` are modelled as `Nat` ticks; `IsOpen` takes
the current time `now` explicitly (the code reads `time.Since(lastFailureTime)
= now - lastFailureTime`) and returns the updated breaker together with the
boolean result, since the open→half-open transition happens inside it. -/

/-- `CircuitBreakerState`. -/
inductive CircuitBreakerState where
  | closed
  | open
  | halfOpen
deriving DecidableEq, Repr

/-- `CircuitBreaker` struct. -/
structure CircuitBreaker where
  maxFailures : Nat
  resetTimeout : Nat
  failureCount : Nat
  lastFailureTime : Nat
  state : CircuitBreakerState
deriving DecidableEq, Repr

/-- `NewCircuitBreaker`. -/
def newCircuitBreaker (maxFailures resetTimeout : Nat) : CircuitBreaker where
  maxFailures := maxFailures
  resetTimeout := resetTimeout
  failureCount := 0
  lastFailureTime := 0
  state := .closed

/-- `CircuitBreaker.IsOpen`: if currently open and `resetTimeout` has elapsed
since the last failure, move to half-open; then report whether the (updated)
state is open. -/
def CircuitBreaker.isOpen (cb : CircuitBreaker) (now : Nat) : CircuitBreaker × Bool :=
  let cb2 : CircuitBreaker :=
    if cb.state = .open ∧ cb.resetTimeout < now - cb.lastFailureTime then
      { cb with state := .halfOpen }
    else cb
  (cb2, cb2.state = .open)

/-- `CircuitBreaker.RecordSuccess`: reset the counter, close the breaker. -/
def CircuitBreaker.recordSuccess (cb : CircuitBreaker) : CircuitBreaker :=
  { cb with failureCount := 0, state := .closed }

/-- `CircuitBreaker.RecordFailure`: bump the counter, stamp the time, open the
breaker once the counter reaches `maxFailures`. -/
def CircuitBreaker.recordFailure (cb : CircuitBreaker) (now : Nat) : CircuitBreaker :=
  let cb2 : CircuitBreaker := { cb with failureCount := cb.failureCount + 1, lastFailureTime := now }
  if cb2.maxFailures ≤ cb2.failureCount then { cb2 with state := .open } else cb2

/-- A run of consecutive `RecordFailure` calls at the given times, with no
intervening `RecordSuccess`. -/
def applyFailures (cb : CircuitBreaker) (times : List Nat) : CircuitBreaker :=
  times.foldl CircuitBreaker.recordFailure cb

/-- Breaker states reachable from `NewCircuitBreaker` through its three
operations (`RecordSuccess`, `RecordFailure`, `IsOpen`). -/
inductive CBReachable : CircuitBreaker → Prop where
  | init (maxFailures resetTimeout : Nat) :
      CBReachable (newCircuitBreaker maxFailures resetTimeout)
  | success {cb : CircuitBreaker} :
      CBReachable cb → CBReachable cb.recordSuccess
  | failure {cb : CircuitBreaker} (now : Nat) :
      CBReachable cb → CBReachable (cb.recordFailure now)
  | isOpenCheck {cb : CircuitBreaker} (now : Nat) :
      CBReachable cb → CBReachable (cb.isOpen now).1

/-! ### EventBus (`internal/eventbus/bus.go`)

The two Go channels of capacity 100 are modelled as lists (send = append at
the back, receive = take from the front); a non-blocking send succeeds exactly
when the queue holds fewer than `busCapacity` elements.  The optional error
callback is modelled by the flag `hasErrorCallback` plus a boolean output
that records whether the callback fired. -/

/-- `UIEvent`s (`SendMessageEvent`, `ConfirmationResponseEvent`). -/
inductive UIEvent where
  | sendMessage (message : String)
  | confirmationResponse (id : String) (approved : Bool)
deriving DecidableEq, Repr

/-- `CoreEvent`s (`StateUpdateEvent`, `ConfirmationRequestEvent`). -/
inductive CoreEvent where
  | stateUpdate (messages : List Message) (isProcessing : Bool) (error : Option String)
  | confirmationRequest (id operation command : String) (dangerous : Bool)
deriving DecidableEq, Repr

/-- Channel capacity from `NewEventBus` (`make(chan ..., 100)`). -/
def busCapacity : Nat := 100

/-- `EventBus` struct. -/
structure EventBus where
  uiToCore : List UIEvent
  coreToUI : List CoreEvent
  hasErrorCallback : Bool
  circuitBreaker : CircuitBreaker
deriving DecidableEq

/-- `NewEventBus`: empty channels, breaker with `maxFailures = 5` and
`resetTimeout = 30s` (30s expressed in ticks, here nanoseconds). -/
def newEventBus : EventBus where
  uiToCore := []
  coreToUI := []
  hasErrorCallback := false
  circuitBreaker := newCircuitBreaker 5 30000000000

/-- `EventBus.reportError`: record a breaker failure and fire the error
callback when one is set.  Returns (updated bus, whether the callback fired). -/
def EventBus.reportError (eb : EventBus) (now : Nat) : EventBus × Bool :=
  ({ eb with circuitBreaker := eb.circuitBreaker.recordFailure now }, eb.hasErrorCallback)

/-- Outcome of a bus send: updated bus, returned error (`none` = nil), and
whether the error callback fired. -/
structure SendOutcome where
  bus : EventBus
  error : Option String
  callbackFired : Bool
deriving DecidableEq

/-- `EventBus.SendToCore`: consult the breaker (lazily updating it); if open,
fail without attempting the enqueue; otherwise try a non-blocking send on the
`uiToCore` channel, recording success or a full-channel failure. -/
def EventBus.sendToCore (eb : EventBus) (now : Nat) (event : UIEvent) : SendOutcome :=
  let cbOut := eb.circuitBreaker.isOpen now
  let eb1 : EventBus := { eb with circuitBreaker := cbOut.1 }
  if cbOut.2 then
    let r := eb1.reportError now
    { bus := r.1, error := some "circuit breaker is open", callbackFired := r.2 }
  else if eb1.uiToCore.length < busCapacity then
    { bus := { eb1 with
        uiToCore := eb1.uiToCore ++ [event]
        circuitBreaker := eb1.circuitBreaker.recordSuccess }
      error := none
      callbackFired := false }
  else
    let r := eb1.reportError now
    { bus := r.1, error := some "UI to Core channel is full", callbackFired := r.2 }

/-- `EventBus.SendToUI`: same discipline on the `coreToUI` channel. -/
def EventBus.sendToUI (eb : EventBus) (now : Nat) (event : CoreEvent) : SendOutcome :=
  let cbOut := eb.circuitBreaker.isOpen now
  let eb1 : EventBus := { eb with circuitBreaker := cbOut.1 }
  if cbOut.2 then
    let r := eb1.reportError now
    { bus := r.1, error := some "circuit breaker is open", callbackFired := r.2 }
  else if eb1.coreToUI.length < busCapacity then
    { bus := { eb1 with
        coreToUI := eb1.coreToUI ++ [event]
        circuitBreaker := eb1.circuitBreaker.recordSuccess }
      error := none
      callbackFired := false }
  else
    let r := eb1.reportError now
    { bus := r.1, error := some "Core to UI channel is full", callbackFired := r.2 }

/-! ### Message projection (`ChatState.GetMessages`, state.go) -/

/-- `extractToolNameFromHistory`: name of the tool call with the given id in
the first assistant message that carries it, else `"unknown"`. -/
def extractToolNameFromHistory : List ChatCompletionMessage → String → String
  | [], _ => "unknown"
  | msg :: rest, toolCallID =>
    if msg.role = .assistant then
      match msg.toolCalls.find? (fun tc => tc.id = toolCallID) with
      | some tc => tc.name
      | none => extractToolNameFromHistory rest toolCallID
    else extractToolNameFromHistory rest toolCallID

/-- UI messages produced from one history entry by the `switch` in
`GetMessages`: a `user` message yields one entry; an `assistant` message
yields its text (when non-empty) followed by one entry per tool call; a
`tool` message yields one tool-result entry; `system` messages yield none. -/
def convertHistoryMessage (history : List ChatCompletionMessage)
    (m : ChatCompletionMessage) : List Message :=
  match m.role with
  | .user => [{ content := m.content, type := .user }]
  | .assistant =>
      (if m.content ≠ "" then [{ content := m.content, type := .assistant }] else [])
        ++ m.toolCalls.map (fun tc =>
            { content := tc.arguments
              type := .toolCall
              toolCallID := tc.id
              toolName := tc.name
              toolArgs := tc.arguments })
  | .tool =>
      [{ content := m.content
         type := .toolResult
         toolCallID := m.toolCallId
         toolName := extractToolNameFromHistory history m.toolCallId }]
  | .system => []

/-- `ChatState.GetMessages`: program messages first, then the chat history
rendered entry by entry. -/
def ChatState.getMessages (cs : ChatState) : List Message :=
  cs.programMessages ++ (cs.chatHistory.map (convertHistoryMessage cs.chatHistory)).flatten

/-! ### Tool registry (`internal/tools`, registry part of file_edit_tool.go)

`map[string]interface{}` argument maps and `interface{}` results are data the
orchestration logic never inspects; they are embedded as association lists of
strings and plain strings respectively.  A tool's `Execute(ctx, args)`
returns `(interface{}, error)`, embedded as `Option String × Option String`
(result may be nil, error may be nil). -/

/-- JSON argument map, as far as the orchestration logic is concerned. -/
def ArgsMap : Type := List (String × String)

/-- `tools.ToolCall`. -/
structure RegistryToolCall where
  id : String
  name : String
  args : ArgsMap

/-- `tools.ToolResult`. -/
structure ToolResult where
  callID : String
  name : String
  result : Option String := none
  error : Option String := none

/-- A registered tool, restricted to what `ExecuteAsync` uses: its `Execute`
body. -/
structure ToolImpl where
  execute : ArgsMap → Option String × Option String

/-- `tools.Registry`: the `name → Tool` map, as an association list. -/
def Registry : Type := List (String × ToolImpl)

/-- `Registry.GetTool`. -/
def Registry.getTool (r : Registry) (name : String) : Option ToolImpl :=
  (List.find? (fun p => p.1 = name) r).map (fun p => p.2)

/-- An operation performed on the result channel by `ExecuteAsync`'s
goroutine. -/
inductive ChanOp where
  | send (r : ToolResult)
  | close

/-- ASCII apostrophe, written via its code point. -/
def sq : String := String.singleton (Char.ofNat 39)

/-- `Registry.ExecuteAsync`: the goroutine body, as the trace of operations it
performs on the supplied channel.  Unknown tool: send a single error result;
known tool: run `Execute` and send a single result whose `Error` is set
exactly when `Execute` returned a non-nil error.  The deferred `close` runs
after the send in both branches. -/
def Registry.executeAsync (r : Registry) (call : RegistryToolCall) : List ChanOp :=
  match r.getTool call.name with
  | none =>
      [.send { callID := call.id, name := call.name
               error := some ("tool " ++ sq ++ call.name ++ sq ++ " not found") },
       .close]
  | some tool =>
      let out := tool.execute call.args
      [.send { callID := call.id, name := call.name, result := out.1, error := out.2 },
       .close]

/-! ### Orchestrator (`internal/core/service.go`)

`ChatService` is embedded with the fields the verified claims touch: the
conversation state, the incremental-push counter, and the bus.  The OpenAI
client and the root context live outside the state proper: the client's
presence is a boolean, API responses and time are inputs, and context
cancellation is one of the explicit outcomes of a confirmation wait. -/

/-- The mutable `ChatService` fields relevant to state propagation. -/
structure ChatServiceState where
  state : ChatState
  lastSentCount : Nat
  eventBus : EventBus
deriving DecidableEq

/-- `pushStateToUI`: project the full message list, slice off the already-sent
prefix, advance `lastSentCount` to the full length, then attempt the bus send
of a `StateUpdateEvent` carrying only the new messages plus the current
flags.  Returns the updated service state and the event that was built (the
slice `allMessages[lastSentCount:]` is well-defined because `lastSentCount`
never exceeds the only-growing projection length). -/
def pushStateToUI (svc : ChatServiceState) (now : Nat) : ChatServiceState × CoreEvent :=
  let allMessages := svc.state.getMessages
  let newMessages := allMessages.drop svc.lastSentCount
  let event : CoreEvent :=
    .stateUpdate newMessages svc.state.isProcessing svc.state.lastError
  let svc1 : ChatServiceState := { svc with lastSentCount := allMessages.length }
  let out := svc1.eventBus.sendToUI now event
  ({ svc1 with eventBus := out.bus }, event)

/-- Result of `handleToolCalls`: the conversation state after the synchronous
part of the loop, the calls actually handed to `ExecuteAsync` (in dispatch
order), and how many times the parse-failure path observed
`allComplete = true` (each such observation invokes
`continueAfterAllToolsComplete`). -/
structure ToolDispatchOut where
  state : ChatState
  dispatched : List ToolCallRef
  barrierSignals : Nat

/-- The per-call loop of `handleToolCalls`.  `parse` stands for
`json.Unmarshal` of the call's `Function.Arguments` into
`map[string]interface{}`: `.ok` is a successful parse, `.error e` carries the
error text.  On parse failure the call is answered with a synthetic error
result and completed in the pending set without dispatching; on success it is
dispatched asynchronously (its result is handled by `handleToolResult`, not
here).  The `pushStateToUI` calls inside the loop touch only the bus and are
accounted for at the service level. -/
def handleToolCallsLoop (parse : String → Except String ArgsMap) :
    ChatState → List ToolCallRef → ToolDispatchOut
  | cs, [] => { state := cs, dispatched := [], barrierSignals := 0 }
  | cs, c :: rest =>
    match parse c.arguments with
    | .error e =>
      let cs1 := cs.addToolResultMessage c.id c.name ("Error parsing arguments: " ++ e)
      let out := cs1.completePendingToolCall c.id
      let tail := handleToolCallsLoop parse out.1 rest
      { tail with barrierSignals := (if out.2 then 1 else 0) + tail.barrierSignals }
    | .ok _ =>
      let tail := handleToolCallsLoop parse cs rest
      { tail with dispatched := c :: tail.dispatched }

/-- `handleToolCalls`: first register every call id in the pending set, then
run the dispatch loop. -/
def handleToolCalls (parse : String → Except String ArgsMap) (cs : ChatState)
    (toolCalls : List ToolCallRef) : ToolDispatchOut :=
  handleToolCallsLoop parse
    (toolCalls.foldl (fun s c => s.addPendingToolCall c.id) cs) toolCalls

/-! ### Confirmation correlation (`requestUserConfirmation`,
`handleConfirmationResponse`, service.go)

`pendingConfirms` is a `map[string]chan bool` where every channel has buffer
size 1; it is embedded as a partial map from id to channel contents:
`confirms id = none` — id not in the table; `confirms id = some none` — id
pending with an empty buffer; `confirms id = some (some b)` — a response `b`
is buffered. -/

/-- The `pendingConfirms` table. -/
def ConfirmMap : Type := String → Option (Option Bool)

/-- Table update at one key. -/
def ConfirmMap.set (m : ConfirmMap) (id : String) (v : Option (Option Bool)) : ConfirmMap :=
  fun k => if k = id then v else m k

/-- `handleConfirmationResponse`: look the id up; if present, do a
non-blocking send of the decision into its channel (dropped when the buffer
is already full); if absent, do nothing. -/
def handleConfirmationResponse (m : ConfirmMap) (id : String) (approved : Bool) : ConfirmMap :=
  match m id with
  | some (some b) => ConfirmMap.set m id (some (some b))
  | some none => ConfirmMap.set m id (some (some approved))
  | none => m

/-- How a confirmation wait ends: a response arrives on the private channel,
or the root context is cancelled. -/
inductive WaitOutcome where
  | response (approved : Bool)
  | cancelled

/-- `requestUserConfirmation`, after the fresh id has been generated: register
an empty single-use channel under the id, send the `ConfirmationRequestEvent`
to the UI, and wait.  A failed send, a response, and a cancellation all remove
the entry; only a delivered response can yield `true`.  `sendOk` is whether
`SendToUI` returned nil; `outcome` is how the subsequent wait ends (only
consulted when the send succeeded). -/
def requestUserConfirmation (m : ConfirmMap) (id : String) (sendOk : Bool)
    (outcome : WaitOutcome) : ConfirmMap × Bool :=
  let m1 := ConfirmMap.set m id (some none)
  if sendOk then
    match outcome with
    | .response approved => (ConfirmMap.set m1 id none, approved)
    | .cancelled => (ConfirmMap.set m1 id none, false)
  else
    (ConfirmMap.set m1 id none, false)

/-! ### The recursive completion loop (`continueConversation`, service.go)

The loop is embedded with its environment made explicit: `hasClient` is
whether `cs.client != nil`; `api n` is the response of the `n`-th
`CreateChatCompletion` call of the run (a transport error or a choice list);
`resultOf c` is the rendered result text that `handleToolResult` records for
call `c` once its execution finishes.  The embedding covers the scenario the
recursion-bound claim quantifies over — every dispatched call's result gets
recorded — so a round with tool calls is followed by the barrier emptying and
the single recursive `continueConversation` (claim C1's exactly-once signal),
here inlined sequentially.  The returned `Nat` is the total number of
completion-API invocations made. -/

/-- One element of `resp.Choices[0].Message`: text plus tool calls. -/
structure ApiChoice where
  content : String
  toolCalls : List ToolCallRef
deriving DecidableEq, Repr

/-- Outcome of one `CreateChatCompletion` call. -/
inductive ApiResult where
  | failure (e : String)
  | ok (choices : List ApiChoice)
deriving DecidableEq, Repr

/-- The tool phase of one round, in the all-results-recorded scenario:
`handleToolCalls` registers every id as pending, then each dispatched call's
`handleToolResult` appends the rendered result message and completes the id
in the pending set (sequentialized in dispatch order). -/
def recordRoundResults (cs : ChatState) (tcs : List ToolCallRef)
    (resultOf : ToolCallRef → String) : ChatState :=
  let cs1 := tcs.foldl (fun s c => s.addPendingToolCall c.id) cs
  tcs.foldl
    (fun s c => ((s.addToolResultMessage c.id c.name (resultOf c)).completePendingToolCall c.id).1)
    cs1

/-- `continueConversation`: fail without an API call when no client is
configured or the recursion guard trips; otherwise increment the depth, make
the API call, and either finish (transport error, no choices, or no tool
calls) or run the tool round and recurse.  Counts API invocations in its
first component. -/
def continueConversation (hasClient : Bool) (api : Nat → ApiResult)
    (resultOf : ToolCallRef → String) (cs : ChatState) (calls : Nat) : Nat × ChatState :=
  if hasClient = false then
    (calls, cs.finishProcessingWithError "OpenAI integration not available")
  else if h : cs.canRecurse = false then
    (calls, cs.finishProcessingWithError "maximum tool call recursion depth reached")
  else
    let cs1 := cs.incrementRecursion
    match api calls with
    | .failure e =>
        (calls + 1, ((cs1.finishProcessingWithError ("OpenAI API error: " ++ e)).resetRecursion))
    | .ok choices =>
      match choices.head? with
      | none => (calls + 1, cs1.finishProcessing.resetRecursion)
      | some choice =>
        let cs2 := if choice.content ≠ "" ∨ choice.toolCalls ≠ [] then
            cs1.addAssistantMessageWithToolCalls choice.content choice.toolCalls
          else cs1
        if choice.toolCalls.isEmpty then
          (calls + 1, cs2.finishProcessing.resetRecursion)
        else
          continueConversation hasClient api resultOf
            (recordRoundResults cs2 choice.toolCalls resultOf) (calls + 1)
termination_by (cs.maxRecursionDepth - cs.recursionDepth).toNat
decreasing_by
  have hlt : cs.recursionDepth < cs.maxRecursionDepth := by
    by_contra hge
    exact h (by simp [ChatState.canRecurse, hge])
  have hfold : ∀ (g : ChatState → ToolCallRef → ChatState),
      (∀ s c, (g s c).recursionDepth = s.recursionDepth) →
      (∀ s c, (g s c).maxRecursionDepth = s.maxRecursionDepth) →
      ∀ (l : List ToolCallRef) (s : ChatState),
        (l.foldl g s).recursionDepth = s.recursionDepth ∧
        (l.foldl g s).maxRecursionDepth = s.maxRecursionDepth := by
    intro g h1 h2 l
    induction l with
    | nil => intro s; exact ⟨rfl, rfl⟩
    | cons c rest ih =>
      intro s
      have hr := ih (g s c)
      exact ⟨hr.1.trans (h1 s c), hr.2.trans (h2 s c)⟩
  have hrr : ∀ (s : ChatState) (tcs : List ToolCallRef),
      (recordRoundResults s tcs resultOf).recursionDepth = s.recursionDepth ∧
      (recordRoundResults s tcs resultOf).maxRecursionDepth = s.maxRecursionDepth := by
    intro s tcs
    have h1 := hfold (fun s c => s.addPendingToolCall c.id)
      (fun s c => rfl) (fun s c => rfl) tcs s
    have h2 := hfold
      (fun s c => ((s.addToolResultMessage c.id c.name (resultOf c)).completePendingToolCall c.id).1)
      (fun s c => rfl) (fun s c => rfl) tcs
      (tcs.foldl (fun s c => s.addPendingToolCall c.id) s)
    exact ⟨(h2.1.trans h1.1 : _), (h2.2.trans h1.2 : _)⟩
  have hcs2d : cs2.recursionDepth = cs.recursionDepth + 1 := by
    simp only [cs2, cs1]
    split <;> rfl
  have hcs2m : cs2.maxRecursionDepth = cs.maxRecursionDepth := by
    simp only [cs2, cs1]
    split <;> rfl
  have hd := (hrr cs2 choice.toolCalls).1
  have hm := (hrr cs2 choice.toolCalls).2
  rw [hd, hm, hcs2d, hcs2m]
  omega

/-! ### Orchestrator transitions on `ChatState` (for the depth invariant)

Every mutation of `ChatState` performed by `processMessage`,
`continueConversation`, `handleToolCalls` and `handleToolResult` is one of
the labelled transitions below, at the granularity of the atomic `ChatState`
methods (composing the consecutive calls that the code always pairs:
`processMessage` runs `StartProcessingWithUserMessage` then `ResetRecursion`;
the error/completion paths run `FinishProcessing*` then `ResetRecursion`).
`IncrementRecursion` is only ever called right after a successful
`CanRecurse` check, which the `apiCall` transition records as its guard. -/

/-- Which orchestrator code path a transition belongs to. -/
inductive StepLabel where
  | userMessage
  | noClient
  | recursionLimit
  | apiCall
  | apiFailure
  | assistantMessage
  | roundComplete
  | registerCall
  | toolResultMsg
  | completeCall
  | programMessage
deriving DecidableEq, Repr

/-- One orchestrator-initiated atomic transition of `ChatState`. -/
inductive OrchStep : StepLabel → ChatState → ChatState → Prop where
  | userMessage (cs : ChatState) (content : String) :
      OrchStep .userMessage cs ((cs.startProcessingWithUserMessage content).resetRecursion)
  | noClient (cs : ChatState) :
      OrchStep .noClient cs (cs.finishProcessingWithError "OpenAI integration not available")
  | recursionLimit (cs : ChatState) :
      cs.canRecurse = false →
      OrchStep .recursionLimit cs
        (cs.finishProcessingWithError "maximum tool call recursion depth reached")
  | apiCall (cs : ChatState) :
      cs.canRecurse = true →
      OrchStep .apiCall cs cs.incrementRecursion
  | apiFailure (cs : ChatState) (e : String) :
      OrchStep .apiFailure cs
        ((cs.finishProcessingWithError ("OpenAI API error: " ++ e)).resetRecursion)
  | assistantMessage (cs : ChatState) (content : String) (toolCalls : List ToolCallRef) :
      OrchStep .assistantMessage cs (cs.addAssistantMessageWithToolCalls content toolCalls)
  | roundComplete (cs : ChatState) :
      OrchStep .roundComplete cs (cs.finishProcessing.resetRecursion)
  | registerCall (cs : ChatState) (id : String) :
      OrchStep .registerCall cs (cs.addPendingToolCall id)
  | toolResultMsg (cs : ChatState) (id toolName content : String) :
      OrchStep .toolResultMsg cs (cs.addToolResultMessage id toolName content)
  | completeCall (cs : ChatState) (id : String) :
      OrchStep .completeCall cs (cs.completePendingToolCall id).1
  | programMessage (cs : ChatState) (content : String) :
      OrchStep .programMessage cs (cs.addProgramMessage content)

/-- States reachable from `NewChatState` through orchestrator transitions. -/
inductive ReachableState : ChatState → Prop where
  | init : ReachableState newChatState
  | step {l : StepLabel} {cs cs' : ChatState} :
      ReachableState cs → OrchStep l cs cs' → ReachableState cs'

/-- Transitions at which the code resets the depth: conversation start
(`processMessage`) and round completion, normal or erroneous. -/
def StepLabel.isStartOrCompletion : StepLabel → Bool
  | .userMessage => true
  | .apiFailure => true
  | .roundComplete => true
  | _ => false

/-! ### Concrete instances used by the witnesses -/

/-- A parse function with one well-formed shape: the empty JSON object. -/
def wParse : String → Except String ArgsMap :=
  fun s => if s = "\x7b\x7d" then .ok [] else .error "invalid character"

/-- A tool call whose arguments do not parse. -/
def wCall : ToolCallRef := ⟨"c1", "shell", "oops"⟩

/-- A registry holding one tool. -/
def wRegistry : Registry := [("echo", ⟨fun _ => (some "done", none)⟩)]

/-- A call for a name absent from `wRegistry`. -/
def wRegCall : RegistryToolCall := ⟨"c9", "missing", []⟩

/-- A confirmation table with one pending empty-buffer entry. -/
def wConfirms : ConfirmMap := fun k => if k = "a" then some none else none

/-- A completion API that answers every call with one choice carrying one
tool call. -/
def wApi : Nat → ApiResult := fun _ => .ok [⟨"", [⟨"id1", "time", "\x7b\x7d"⟩]⟩]

/-- A rendered tool-result text. -/
def wResultOf : ToolCallRef → String := fun _ => "ok"

/-! ## Theorems -/

/-- Claim C10: `CompletePendingToolCall` does not check membership — for an id
not in the pending set it leaves the set unchanged, and it returns `true`
exactly when the (unchanged) set is empty; in particular an unknown or
duplicate id completed against an empty set yields the barrier-complete
signal. -/
theorem completePending_unknown_id_C10 (cs : ChatState) (id : String)
    (h : id ∉ cs.pendingToolCalls) :
    (cs.completePendingToolCall id).1.pendingToolCalls = cs.pendingToolCalls ∧
    ((cs.completePendingToolCall id).2 = true ↔ cs.pendingToolCalls = ∅) := by
  constructor
  · simp [ChatState.completePendingToolCall, Finset.erase_eq_of_not_mem h]
  · simp [ChatState.completePendingToolCall, Finset.erase_eq_of_not_mem h,
      Finset.card_eq_zero]

/-- Witness for C10 at the fresh state and the unknown id `"x"`. -/
theorem completePending_unknown_id_C10_w :
    "x" ∉ newChatState.pendingToolCalls ∧
    ((newChatState.completePendingToolCall "x").1.pendingToolCalls =
        newChatState.pendingToolCalls ∧
      ((newChatState.completePendingToolCall "x").2 = true ↔
        newChatState.pendingToolCalls = ∅)) :=
  ⟨by decide, completePending_unknown_id_C10 newChatState "x" (by decide)⟩

/-- Claim C1: with the N distinct call ids of a round all registered as
pending, completing them via `CompletePendingToolCall` in any order returns
`false` for the first N−1 completions and `true` for the last one only;
hence `continueAfterAllToolsComplete` — and with it `continueConversation`
for the next round — fires exactly once, after all N results are recorded. -/
theorem barrier_exactness_C1 (cs : ChatState) (ids : List String)
    (hne : ids ≠ []) (hnd : ids.Nodup) (hp : cs.pendingToolCalls = ids.toFinset) :
    completionSignals cs ids = List.replicate (ids.length - 1) false ++ [true] ∧
    continuationCount cs ids = 1 := by
  have main : ∀ (l : List String) (s : ChatState), l ≠ [] → l.Nodup →
      s.pendingToolCalls = l.toFinset →
      completionSignals s l = List.replicate (l.length - 1) false ++ [true] := by
    intro l
    induction l with
    | nil => intro s h; exact absurd rfl h
    | cons id rest ih =>
      intro s _ hnd hp
      have hid : id ∉ rest.toFinset := by
        rw [List.mem_toFinset]
        exact (List.nodup_cons.mp hnd).1
      have herase : s.pendingToolCalls.erase id = rest.toFinset := by
        rw [hp, List.toFinset_cons, Finset.erase_insert hid]
      rcases eq_or_ne rest [] with hrest | hrest
      · subst hrest
        simp [completionSignals, ChatState.completePendingToolCall, herase]
      · have hne2 : rest.toFinset ≠ ∅ := by
          simpa using hrest
        have hcard : rest.toFinset.card ≠ 0 := fun hc => hne2 (Finset.card_eq_zero.mp hc)
        have hrec := ih { s with pendingToolCalls := s.pendingToolCalls.erase id }
          hrest (List.nodup_cons.mp hnd).2 herase
        have hlen : rest.length - 1 + 1 = rest.length :=
          Nat.succ_pred_eq_of_pos (List.length_pos.mpr hrest)
        have hbeq : (rest.toFinset.card == 0) = false := by
          simp [hcard]
        rw [herase] at hrec
        simp only [completionSignals, ChatState.completePendingToolCall,
          List.length_cons, Nat.add_sub_cancel]
        rw [herase, hbeq, hrec]
        conv_rhs => rw [← hlen, List.replicate_succ]
        simp
  have hsig := main ids cs hne hnd hp
  refine ⟨hsig, ?_⟩
  unfold continuationCount
  rw [hsig]
  simp [List.count_append, List.count_replicate]

/-- Witness for C1: two pending ids completed in order; the signals are
`[false, true]` and the continuation fires once. -/
theorem barrier_exactness_C1_w :
    (["a", "b"] : List String) ≠ [] ∧ (["a", "b"] : List String).Nodup ∧
    (completionSignals
        { newChatState with pendingToolCalls := (["a", "b"] : List String).toFinset }
        ["a", "b"] =
      List.replicate ((["a", "b"] : List String).length - 1) false ++ [true] ∧
    continuationCount
        { newChatState with pendingToolCalls := (["a", "b"] : List String).toFinset }
        ["a", "b"] = 1) :=
  ⟨by decide, by decide,
    barrier_exactness_C1
      { newChatState with pendingToolCalls := (["a", "b"] : List String).toFinset }
      ["a", "b"] (by decide) (by decide) rfl⟩

/-- `RecordFailure` keeps an open breaker open. -/
theorem recordFailure_state_open (cb : CircuitBreaker) (t : Nat) (h : cb.state = .open) :
    (cb.recordFailure t).state = .open := by
  simp only [CircuitBreaker.recordFailure]
  split
  · rfl
  · exact h

/-- A run of failures keeps an open breaker open. -/
theorem applyFailures_open (ts : List Nat) : ∀ cb : CircuitBreaker, cb.state = .open →
    (applyFailures cb ts).state = .open := by
  induction ts with
  | nil => intro cb h; exact h
  | cons t rest ih => intro cb h; exact ih _ (recordFailure_state_open cb t h)

/-- Failure-count bookkeeping of `RecordFailure`. -/
theorem recordFailure_count (cb : CircuitBreaker) (t : Nat) :
    (cb.recordFailure t).failureCount = cb.failureCount + 1 := by
  simp only [CircuitBreaker.recordFailure]
  split <;> rfl

/-- `RecordFailure` never changes `maxFailures`. -/
theorem recordFailure_max (cb : CircuitBreaker) (t : Nat) :
    (cb.recordFailure t).maxFailures = cb.maxFailures := by
  simp only [CircuitBreaker.recordFailure]
  split <;> rfl

/-- A run of consecutive failures starting from a closed breaker ends open
exactly when the run is non-empty and pushes the counter to `maxFailures`. -/
theorem applyFailures_closed (ts : List Nat) : ∀ cb : CircuitBreaker, cb.state = .closed →
    ((applyFailures cb ts).state = .open ↔
      (ts ≠ [] ∧ cb.maxFailures ≤ cb.failureCount + ts.length)) := by
  induction ts with
  | nil =>
    intro cb h
    constructor
    · intro ho
      rw [show applyFailures cb [] = cb from rfl, h] at ho
      exact absurd ho (by simp)
    · intro hr
      exact absurd rfl hr.1
  | cons t rest ih =>
    intro cb h
    rw [show applyFailures cb (t :: rest) = applyFailures (cb.recordFailure t) rest from rfl]
    by_cases hm : cb.maxFailures ≤ cb.failureCount + 1
    · have hopen : (cb.recordFailure t).state = .open := by
        unfold CircuitBreaker.recordFailure
        rw [if_pos hm]
      rw [applyFailures_open rest _ hopen]
      simp only [List.length_cons, ne_eq, reduceCtorEq, not_false_eq_true, true_and, true_iff]
      omega
    · have hclosed : (cb.recordFailure t).state = .closed := by
        unfold CircuitBreaker.recordFailure
        rw [if_neg hm]
        exact h
      have hiff := ih (cb.recordFailure t) hclosed
      rw [recordFailure_count, recordFailure_max] at hiff
      rw [hiff]
      rcases eq_or_ne rest [] with hrest | hrest
      · subst hrest
        simp only [List.length_nil, List.length_cons, ne_eq, not_true_eq_false, false_and,
          reduceCtorEq, not_false_eq_true, true_and, false_iff]
        omega
      · simp only [hrest, ne_eq, not_false_eq_true, true_and, List.length_cons,
          reduceCtorEq]
        omega

/-- Reachability invariant of the breaker: away from `closed`, the failure
counter has reached `maxFailures`. -/
theorem cbReachable_count_bound {cb : CircuitBreaker} (h : CBReachable cb) :
    cb.state ≠ .closed → cb.maxFailures ≤ cb.failureCount := by
  induction h with
  | init maxFailures resetTimeout => intro hs; exact absurd rfl hs
  | success _ _ => intro hs; exact absurd rfl hs
  | failure now _ ih =>
    rename_i cb' _
    intro hs
    rw [recordFailure_count, recordFailure_max]
    simp only [CircuitBreaker.recordFailure] at hs
    by_cases hm : cb'.maxFailures ≤ cb'.failureCount + 1
    · exact hm
    · rw [if_neg hm] at hs
      exact Nat.le_succ_of_le (ih hs)
  | isOpenCheck now _ ih =>
    rename_i cb' _
    intro hs
    simp only [CircuitBreaker.isOpen] at hs ⊢
    by_cases hc : cb'.state = .open ∧ cb'.resetTimeout < now - cb'.lastFailureTime
    · rw [if_pos hc] at hs ⊢
      exact ih (by rw [hc.1]; simp)
    · rw [if_neg hc] at hs ⊢
      exact ih hs

/-- Claim C4: the breaker's state machine.  (1) From a closed breaker with a
clean counter, a run of consecutive `RecordFailure` calls with no intervening
`RecordSuccess` ends open exactly when it contains at least `maxFailures`
calls.  (2) From open, the very `IsOpen` check performed once `resetTimeout`
has elapsed since the last failure moves the breaker to half-open (and then
reports it as not open); before that it stays open.  (3) From half-open, the
next `RecordSuccess` closes the breaker.  (4) From half-open (in any
reachable breaker), the next `RecordFailure` reopens it. -/
theorem circuitBreaker_transitions_C4 :
    (∀ (cb : CircuitBreaker) (ts : List Nat),
      cb.state = .closed → cb.failureCount = 0 → 1 ≤ cb.maxFailures →
      ((applyFailures cb ts).state = .open ↔ cb.maxFailures ≤ ts.length)) ∧
    (∀ (cb : CircuitBreaker) (now : Nat), cb.state = .open →
      ((cb.isOpen now).1.state =
        if cb.resetTimeout < now - cb.lastFailureTime then .halfOpen else .open) ∧
      ((cb.isOpen now).2 = true ↔ ¬ cb.resetTimeout < now - cb.lastFailureTime)) ∧
    (∀ cb : CircuitBreaker, cb.state = .halfOpen → cb.recordSuccess.state = .closed) ∧
    (∀ (cb : CircuitBreaker) (now : Nat), CBReachable cb → cb.state = .halfOpen →
      (cb.recordFailure now).state = .open) := by
  refine ⟨?_, ?_, ?_, ?_⟩
  · intro cb ts hs hc hm
    rw [applyFailures_closed ts cb hs, hc, Nat.zero_add]
    constructor
    · exact fun h => h.2
    · intro h
      refine ⟨?_, h⟩
      intro hnil
      subst hnil
      simp only [List.length_nil, Nat.le_zero] at h
      omega
  · intro cb now hs
    simp only [CircuitBreaker.isOpen]
    by_cases he : cb.resetTimeout < now - cb.lastFailureTime
    · rw [if_pos ⟨hs, he⟩, if_pos he]
      simp [he]
    · rw [if_neg (fun hc => he hc.2), if_neg he]
      simp [hs, he]
  · intro cb _
    rfl
  · intro cb now hr hs
    have hb := cbReachable_count_bound hr (by rw [hs]; simp)
    simp only [CircuitBreaker.recordFailure]
    rw [if_pos (Nat.le_succ_of_le hb)]

/-- Witness for C4 at concrete breakers: a fresh breaker with `maxFailures =
2` opened by two failures; an open breaker checked after the timeout; a
half-open breaker closed by a success; a reachable half-open breaker reopened
by a failure. -/
theorem circuitBreaker_transitions_C4_w :
    ((applyFailures (newCircuitBreaker 2 7) [3, 4]).state = .open ↔
      (newCircuitBreaker 2 7).maxFailures ≤ ([3, 4] : List Nat).length) ∧
    ((((⟨2, 7, 2, 3, .open⟩ : CircuitBreaker).isOpen 20).1.state =
        if (⟨2, 7, 2, 3, .open⟩ : CircuitBreaker).resetTimeout <
            20 - (⟨2, 7, 2, 3, .open⟩ : CircuitBreaker).lastFailureTime
          then .halfOpen else .open) ∧
      ((((⟨2, 7, 2, 3, .open⟩ : CircuitBreaker).isOpen 20).2 = true) ↔
        ¬ (⟨2, 7, 2, 3, .open⟩ : CircuitBreaker).resetTimeout <
            20 - (⟨2, 7, 2, 3, .open⟩ : CircuitBreaker).lastFailureTime)) ∧
    ((⟨2, 7, 2, 3, .halfOpen⟩ : CircuitBreaker).recordSuccess.state = .closed) ∧
    (((((newCircuitBreaker 2 0).recordFailure 1).recordFailure 1).isOpen 5).1.recordFailure
        9).state = .open :=
  ⟨circuitBreaker_transitions_C4.1 (newCircuitBreaker 2 7) [3, 4] rfl rfl (by decide),
   circuitBreaker_transitions_C4.2.1 ⟨2, 7, 2, 3, .open⟩ 20 rfl,
   circuitBreaker_transitions_C4.2.2.1 ⟨2, 7, 2, 3, .halfOpen⟩ rfl,
   circuitBreaker_transitions_C4.2.2.2 ((((newCircuitBreaker 2 0).recordFailure 1).recordFailure 1).isOpen 5).1 9
     (CBReachable.isOpenCheck 5 (CBReachable.failure 1 (CBReachable.failure 1 (CBReachable.init 2 0))))
     (by decide)⟩

/-- The lazy `IsOpen` check never touches the failure counter. -/
theorem isOpen_count (cb : CircuitBreaker) (now : Nat) :
    (cb.isOpen now).1.failureCount = cb.failureCount := by
  simp only [CircuitBreaker.isOpen]
  split <;> rfl

/-- Claim C5: `SendToCore` and `SendToUI` return an error exactly when the
(lazily updated) breaker is open or the target channel is full; the event is
enqueued exactly when `nil` is returned (in particular an open breaker means
the enqueue is never attempted); every failed send increments the breaker's
failure counter and fires the error callback precisely when one is set; every
successful send resets the counter to zero. -/
theorem busSend_semantics_C5 :
    (∀ (eb : EventBus) (now : Nat) (e : UIEvent),
      ((eb.sendToCore now e).error = none ↔
        ((eb.circuitBreaker.isOpen now).2 = false ∧ eb.uiToCore.length < busCapacity)) ∧
      ((eb.sendToCore now e).error = none →
        (eb.sendToCore now e).bus.uiToCore = eb.uiToCore ++ [e]) ∧
      ((eb.sendToCore now e).error ≠ none →
        (eb.sendToCore now e).bus.uiToCore = eb.uiToCore) ∧
      ((eb.sendToCore now e).error ≠ none →
        (eb.sendToCore now e).bus.circuitBreaker.failureCount =
            eb.circuitBreaker.failureCount + 1 ∧
        (eb.sendToCore now e).callbackFired = eb.hasErrorCallback) ∧
      ((eb.sendToCore now e).error = none →
        (eb.sendToCore now e).bus.circuitBreaker.failureCount = 0)) ∧
    (∀ (eb : EventBus) (now : Nat) (e : CoreEvent),
      ((eb.sendToUI now e).error = none ↔
        ((eb.circuitBreaker.isOpen now).2 = false ∧ eb.coreToUI.length < busCapacity)) ∧
      ((eb.sendToUI now e).error = none →
        (eb.sendToUI now e).bus.coreToUI = eb.coreToUI ++ [e]) ∧
      ((eb.sendToUI now e).error ≠ none →
        (eb.sendToUI now e).bus.coreToUI = eb.coreToUI) ∧
      ((eb.sendToUI now e).error ≠ none →
        (eb.sendToUI now e).bus.circuitBreaker.failureCount =
            eb.circuitBreaker.failureCount + 1 ∧
        (eb.sendToUI now e).callbackFired = eb.hasErrorCallback) ∧
      ((eb.sendToUI now e).error = none →
        (eb.sendToUI now e).bus.circuitBreaker.failureCount = 0)) := by
  constructor
  · intro eb now e
    simp only [EventBus.sendToCore, EventBus.reportError]
    by_cases hopen : (eb.circuitBreaker.isOpen now).2
    · simp [hopen, recordFailure_count, isOpen_count]
    · by_cases hfull : eb.uiToCore.length < busCapacity
      · simp [hopen, hfull, CircuitBreaker.recordSuccess]
      · simp [hopen, hfull, recordFailure_count, isOpen_count]
  · intro eb now e
    simp only [EventBus.sendToUI, EventBus.reportError]
    by_cases hopen : (eb.circuitBreaker.isOpen now).2
    · simp [hopen, recordFailure_count, isOpen_count]
    · by_cases hfull : eb.coreToUI.length < busCapacity
      · simp [hopen, hfull, CircuitBreaker.recordSuccess]
      · simp [hopen, hfull, recordFailure_count, isOpen_count]

/-- Witness for C5: on a fresh bus a send succeeds and the event is the one
enqueued. -/
theorem busSend_semantics_C5_w :
    (newEventBus.sendToCore 0 (.sendMessage "hi")).error = none ∧
    (newEventBus.sendToCore 0 (.sendMessage "hi")).bus.uiToCore =
      newEventBus.uiToCore ++ [.sendMessage "hi"] := by
  have h := busSend_semantics_C5.1 newEventBus 0 (.sendMessage "hi")
  have herr : (newEventBus.sendToCore 0 (.sendMessage "hi")).error = none :=
    h.1.mpr ⟨by decide, by decide⟩
  exact ⟨herr, h.2.1 herr⟩

/-- Claim C6: when `pushStateToUI` runs with `lastSentCount = k` and the
current projection holds `k + m` messages, the `StateUpdateEvent` it builds
carries exactly the `m` newly appended messages (the suffix of the projection
from index `k`) together with the current `isProcessing` and `lastError`
flags — never the full log — and `lastSentCount` becomes `k + m` regardless
of whether the bus send succeeds. -/
theorem incremental_push_C6 (svc : ChatServiceState) (now : Nat) (k m : Nat)
    (hk : svc.lastSentCount = k) (hlen : (svc.state.getMessages).length = k + m) :
    (pushStateToUI svc now).2 =
      .stateUpdate ((svc.state.getMessages).drop k)
        svc.state.isProcessing svc.state.lastError ∧
    ((svc.state.getMessages).drop k).length = m ∧
    (pushStateToUI svc now).1.lastSentCount = k + m := by
  subst hk
  refine ⟨rfl, ?_, ?_⟩
  · rw [List.length_drop, hlen]
    omega
  · simp only [pushStateToUI]
    exact hlen

/-- Witness for C6: a projection of 2 messages with 1 already sent pushes
exactly the 1 new message and advances the counter to 2. -/
theorem incremental_push_C6_w :
    (pushStateToUI
        { state := (newChatState.addProgramMessage "w").startProcessingWithUserMessage "hello"
          lastSentCount := 1
          eventBus := newEventBus } 0).2 =
      .stateUpdate
        ((((newChatState.addProgramMessage "w").startProcessingWithUserMessage
            "hello").getMessages).drop 1)
        ((newChatState.addProgramMessage "w").startProcessingWithUserMessage
            "hello").isProcessing
        ((newChatState.addProgramMessage "w").startProcessingWithUserMessage
            "hello").lastError ∧
    ((((newChatState.addProgramMessage "w").startProcessingWithUserMessage
        "hello").getMessages).drop 1).length = 1 ∧
    (pushStateToUI
        { state := (newChatState.addProgramMessage "w").startProcessingWithUserMessage "hello"
          lastSentCount := 1
          eventBus := newEventBus } 0).1.lastSentCount = 1 + 1 :=
  incremental_push_C6
    { state := (newChatState.addProgramMessage "w").startProcessingWithUserMessage "hello"
      lastSentCount := 1
      eventBus := newEventBus } 0 1 1 rfl (by decide)

/-- Only calls whose arguments parse are handed to `ExecuteAsync`. -/
theorem handleToolCallsLoop_dispatched_ok (parse : String → Except String ArgsMap) :
    ∀ (tcs : List ToolCallRef) (cs : ChatState),
      ∀ d ∈ (handleToolCallsLoop parse cs tcs).dispatched, ∃ a, parse d.arguments = .ok a := by
  intro tcs
  induction tcs with
  | nil => intro cs d hd; simp [handleToolCallsLoop] at hd
  | cons c rest ih =>
    intro cs d hd
    simp only [handleToolCallsLoop] at hd
    cases hparse : parse c.arguments with
    | error e =>
      rw [hparse] at hd
      simp only at hd
      exact ih _ d hd
    | ok a =>
      rw [hparse] at hd
      simp only [List.mem_cons] at hd
      rcases hd with hd | hd
      · subst hd; exact ⟨a, hparse⟩
      · exact ih _ d hd

/-- The dispatch loop only appends to the chat history. -/
theorem handleToolCallsLoop_history_mono (parse : String → Except String ArgsMap) :
    ∀ (tcs : List ToolCallRef) (cs : ChatState) (m : ChatCompletionMessage),
      m ∈ cs.chatHistory → m ∈ (handleToolCallsLoop parse cs tcs).state.chatHistory := by
  intro tcs
  induction tcs with
  | nil => intro cs m hm; exact hm
  | cons c rest ih =>
    intro cs m hm
    simp only [handleToolCallsLoop]
    cases hparse : parse c.arguments with
    | error e =>
      simp only
      refine ih _ m ?_
      simp only [ChatState.completePendingToolCall, ChatState.addToolResultMessage,
        List.mem_append]
      exact Or.inl hm
    | ok a =>
      simp only
      exact ih _ m hm

/-- The dispatch loop never adds pending ids. -/
theorem handleToolCallsLoop_pending_mono (parse : String → Except String ArgsMap) :
    ∀ (tcs : List ToolCallRef) (cs : ChatState) (id : String),
      id ∉ cs.pendingToolCalls →
      id ∉ (handleToolCallsLoop parse cs tcs).state.pendingToolCalls := by
  intro tcs
  induction tcs with
  | nil => intro cs id h; exact h
  | cons c rest ih =>
    intro cs id h
    simp only [handleToolCallsLoop]
    cases hparse : parse c.arguments with
    | error e =>
      simp only
      refine ih _ id ?_
      simp only [ChatState.completePendingToolCall, ChatState.addToolResultMessage]
      exact fun hmem => h (Finset.mem_of_mem_erase hmem)
    | ok a =>
      simp only
      exact ih _ id h

/-- Claim C7: a tool call whose `argumentsJSON` fails to parse is never
dispatched (`ExecuteAsync` only ever receives calls that parsed); a
`tool`-role message carrying the parse error is appended for its call id; and
its id is completed out of the pending set, so the barrier still accounts for
it. -/
theorem parse_short_circuit_C7 (parse : String → Except String ArgsMap)
    (cs : ChatState) (toolCalls : List ToolCallRef) (c : ToolCallRef) (e : String)
    (hc : c ∈ toolCalls) (hp : parse c.arguments = .error e) :
    c ∉ (handleToolCalls parse cs toolCalls).dispatched ∧
    (∀ d ∈ (handleToolCalls parse cs toolCalls).dispatched, ∃ a, parse d.arguments = .ok a) ∧
    ({ role := .tool, content := "Error parsing arguments: " ++ e,
        toolCallId := c.id } : ChatCompletionMessage) ∈
      (handleToolCalls parse cs toolCalls).state.chatHistory ∧
    c.id ∉ (handleToolCalls parse cs toolCalls).state.pendingToolCalls := by
  have hok := handleToolCallsLoop_dispatched_ok parse toolCalls
    (toolCalls.foldl (fun s c => s.addPendingToolCall c.id) cs)
  refine ⟨?_, hok, ?_, ?_⟩
  · intro hmem
    rcases hok c hmem with ⟨a, ha⟩
    rw [hp] at ha
    exact Except.noConfusion ha
  · have main : ∀ (tcs : List ToolCallRef) (s : ChatState), c ∈ tcs →
        ({ role := .tool, content := "Error parsing arguments: " ++ e,
            toolCallId := c.id } : ChatCompletionMessage) ∈
          (handleToolCallsLoop parse s tcs).state.chatHistory := by
      intro tcs
      induction tcs with
      | nil => intro s h; exact absurd h (List.not_mem_nil c)
      | cons d rest ih =>
        intro s h
        rcases List.mem_cons.mp h with h | h
        · subst h
          simp only [handleToolCallsLoop, hp]
          refine handleToolCallsLoop_history_mono parse rest _ _ ?_
          simp only [ChatState.completePendingToolCall, ChatState.addToolResultMessage,
            List.mem_append, List.mem_singleton]
          exact Or.inr trivial
        · simp only [handleToolCallsLoop]
          cases hparse : parse d.arguments with
          | error e2 => simp only; exact ih _ h
          | ok a => simp only; exact ih _ h
    exact main toolCalls _ hc
  · have main : ∀ (tcs : List ToolCallRef) (s : ChatState), c ∈ tcs →
        c.id ∉ (handleToolCallsLoop parse s tcs).state.pendingToolCalls := by
      intro tcs
      induction tcs with
      | nil => intro s h; exact absurd h (List.not_mem_nil c)
      | cons d rest ih =>
        intro s h
        rcases List.mem_cons.mp h with h | h
        · subst h
          simp only [handleToolCallsLoop, hp]
          refine handleToolCallsLoop_pending_mono parse rest _ _ ?_
          simp only [ChatState.completePendingToolCall, ChatState.addToolResultMessage]
          exact Finset.not_mem_erase c.id _
        · simp only [handleToolCallsLoop]
          cases hparse : parse d.arguments with
          | error e2 => simp only; exact ih _ h
          | ok a => simp only; exact ih _ h
    exact main toolCalls _ hc

/-- Witness for C7: a single call with malformed arguments is not dispatched,
gets a synthetic error result, and is completed in the pending set. -/
theorem parse_short_circuit_C7_w :
    wCall ∈ [wCall] ∧ wParse wCall.arguments = .error "invalid character" ∧
    (wCall ∉ (handleToolCalls wParse newChatState [wCall]).dispatched ∧
      (∀ d ∈ (handleToolCalls wParse newChatState [wCall]).dispatched,
        ∃ a, wParse d.arguments = .ok a) ∧
      ({ role := .tool, content := "Error parsing arguments: " ++ "invalid character",
          toolCallId := wCall.id } : ChatCompletionMessage) ∈
        (handleToolCalls wParse newChatState [wCall]).state.chatHistory ∧
      wCall.id ∉ (handleToolCalls wParse newChatState [wCall]).state.pendingToolCalls) :=
  ⟨List.mem_singleton_self wCall, rfl,
    parse_short_circuit_C7 wParse newChatState [wCall] wCall "invalid character"
      (List.mem_singleton_self wCall) rfl⟩

/-- Claim C8: for every tool call, `ExecuteAsync`'s goroutine performs exactly
one send of a `ToolResult` carrying the call's id and name, followed by a
close of the channel; an unregistered name yields that single result with a
"tool not found" error instead of a panic; a tool-execution error is carried
in `ToolResult.Error`. -/
theorem executeAsync_discipline_C8 (reg : Registry) (call : RegistryToolCall) :
    ∃ r : ToolResult,
      reg.executeAsync call = [.send r, .close] ∧
      r.callID = call.id ∧ r.name = call.name ∧
      (reg.getTool call.name = none →
        r.error = some ("tool " ++ sq ++ call.name ++ sq ++ " not found")) ∧
      (∀ t : ToolImpl, reg.getTool call.name = some t →
        r.result = (t.execute call.args).1 ∧ r.error = (t.execute call.args).2) := by
  cases hget : reg.getTool call.name with
  | none =>
    refine ⟨⟨call.id, call.name, none, some ("tool " ++ sq ++ call.name ++ sq ++ " not found")⟩,
      ?_, rfl, rfl, fun _ => rfl, ?_⟩
    · simp [Registry.executeAsync, hget]
    · intro t ht
      exact Option.noConfusion ht
  | some t =>
    refine ⟨⟨call.id, call.name, (t.execute call.args).1, (t.execute call.args).2⟩,
      ?_, rfl, rfl, ?_, ?_⟩
    · simp [Registry.executeAsync, hget]
    · intro hn
      exact Option.noConfusion hn
    · intro t2 ht2
      cases ht2
      exact ⟨rfl, rfl⟩

/-- Witness for C8 at a registry that does not hold the called name. -/
theorem executeAsync_discipline_C8_w :
    ∃ r : ToolResult,
      wRegistry.executeAsync wRegCall = [.send r, .close] ∧
      r.callID = wRegCall.id ∧ r.name = wRegCall.name ∧
      (wRegistry.getTool wRegCall.name = none →
        r.error = some ("tool " ++ sq ++ wRegCall.name ++ sq ++ " not found")) ∧
      (∀ t : ToolImpl, wRegistry.getTool wRegCall.name = some t →
        r.result = (t.execute wRegCall.args).1 ∧ r.error = (t.execute wRegCall.args).2) :=
  executeAsync_discipline_C8 wRegistry wRegCall

/-- Claim C9: a `ConfirmationResponse` is delivered only to the pending entry
whose id matches exactly (entries under any other id are untouched, so two
outstanding requests never cross-deliver); a response whose id is not in the
table is a no-op; a wait interrupted by root-context cancellation returns
`false`; and the pending entry is removed from the table on the response path
and on the cancellation path alike. -/
theorem confirmation_correlation_C9 :
    (∀ (m : ConfirmMap) (id : String) (approved : Bool) (other : String), other ≠ id →
      handleConfirmationResponse m id approved other = m other) ∧
    (∀ (m : ConfirmMap) (id : String) (approved : Bool), m id = some none →
      handleConfirmationResponse m id approved id = some (some approved)) ∧
    (∀ (m : ConfirmMap) (id : String) (approved : Bool), m id = none →
      handleConfirmationResponse m id approved = m) ∧
    (∀ (m : ConfirmMap) (id : String) (sendOk : Bool),
      (requestUserConfirmation m id sendOk .cancelled).2 = false ∧
      (requestUserConfirmation m id sendOk .cancelled).1 id = none) ∧
    (∀ (m : ConfirmMap) (id : String) (b : Bool),
      (requestUserConfirmation m id true (.response b)).2 = b ∧
      (requestUserConfirmation m id true (.response b)).1 id = none) := by
  refine ⟨?_, ?_, ?_, ?_, ?_⟩
  · intro m id approved other hne
    unfold handleConfirmationResponse
    cases hm : m id with
    | none => rfl
    | some buf =>
      cases buf <;> simp [ConfirmMap.set, hne]
  · intro m id approved hm
    unfold handleConfirmationResponse
    rw [hm]
    simp [ConfirmMap.set]
  · intro m id approved hm
    unfold handleConfirmationResponse
    rw [hm]
  · intro m id sendOk
    unfold requestUserConfirmation
    cases sendOk <;> simp [ConfirmMap.set]
  · intro m id b
    unfold requestUserConfirmation
    simp [ConfirmMap.set]

/-- Witness for C9 on a concrete one-entry table: no cross-delivery to a
different id, exact delivery to the matching id, no-op on an unknown id, and
the removal/denial behavior of cancelled and answered waits. -/
theorem confirmation_correlation_C9_w :
    ("b" : String) ≠ "a" ∧
    (handleConfirmationResponse wConfirms "a" true "b" = wConfirms "b") ∧
    (wConfirms "a" = some none) ∧
    (handleConfirmationResponse wConfirms "a" true "a" = some (some true)) ∧
    (wConfirms "z" = none) ∧
    (handleConfirmationResponse wConfirms "z" true = wConfirms) ∧
    ((requestUserConfirmation wConfirms "a" true .cancelled).2 = false ∧
      (requestUserConfirmation wConfirms "a" true .cancelled).1 "a" = none) ∧
    ((requestUserConfirmation wConfirms "a" true (.response true)).2 = true ∧
      (requestUserConfirmation wConfirms "a" true (.response true)).1 "a" = none) :=
  ⟨by decide,
    confirmation_correlation_C9.1 wConfirms "a" true "b" (by decide),
    rfl,
    confirmation_correlation_C9.2.1 wConfirms "a" true rfl,
    rfl,
    confirmation_correlation_C9.2.2.1 wConfirms "z" true rfl,
    confirmation_correlation_C9.2.2.2.1 wConfirms "a" true,
    confirmation_correlation_C9.2.2.2.2 wConfirms "a" true⟩

/-- Claim C3: in every state reachable through the orchestrator's operations,
`0 ≤ recursionDepth ≤ maxRecursionDepth`; and along any transition from a
reachable state, the depth is reset to 0 only by the conversation-start
transition or a round-completion transition (normal or erroneous). -/
theorem recursion_invariant_C3 :
    (∀ cs : ChatState, ReachableState cs →
      0 ≤ cs.recursionDepth ∧ cs.recursionDepth ≤ cs.maxRecursionDepth) ∧
    (∀ (l : StepLabel) (cs cs' : ChatState), ReachableState cs → OrchStep l cs cs' →
      cs'.recursionDepth = 0 → cs.recursionDepth ≠ 0 →
      l.isStartOrCompletion = true) := by
  have hinv : ∀ cs : ChatState, ReachableState cs →
      0 ≤ cs.recursionDepth ∧ cs.recursionDepth ≤ cs.maxRecursionDepth := by
    intro cs h
    induction h with
    | init => exact ⟨le_refl 0, by norm_num [newChatState]⟩
    | step hr hstep ih =>
      cases hstep with
      | userMessage cs content =>
        exact ⟨le_refl 0, le_trans ih.1 ih.2⟩
      | noClient cs => exact ih
      | recursionLimit cs hg => exact ih
      | apiCall cs hg =>
        simp only [ChatState.canRecurse, decide_eq_true_eq] at hg
        have h1 := ih.1
        have h2 := ih.2
        constructor
        · simp only [ChatState.incrementRecursion]
          omega
        · simp only [ChatState.incrementRecursion]
          omega
      | apiFailure cs e => exact ⟨le_refl 0, le_trans ih.1 ih.2⟩
      | assistantMessage cs content toolCalls => exact ih
      | roundComplete cs => exact ⟨le_refl 0, le_trans ih.1 ih.2⟩
      | registerCall cs id => exact ih
      | toolResultMsg cs id toolName content => exact ih
      | completeCall cs id => exact ih
      | programMessage cs content => exact ih
  refine ⟨hinv, ?_⟩
  intro l cs cs' hr hstep h0 hne
  cases hstep with
  | userMessage cs content => rfl
  | noClient cs => exact absurd h0 hne
  | recursionLimit cs hg => exact absurd h0 hne
  | apiCall cs hg =>
    have hb := (hinv cs hr).1
    have : cs.incrementRecursion.recursionDepth = cs.recursionDepth + 1 := rfl
    rw [this] at h0
    omega
  | apiFailure cs e => rfl
  | assistantMessage cs content toolCalls => exact absurd h0 hne
  | roundComplete cs => rfl
  | registerCall cs id => exact absurd h0 hne
  | toolResultMsg cs id toolName content => exact absurd h0 hne
  | completeCall cs id => exact absurd h0 hne
  | programMessage cs content => exact absurd h0 hne

/-- Witness for C3: the invariant evaluated at a concrete reachable state —
fresh state, user message received, one API call made (depth 1). -/
theorem recursion_invariant_C3_w :
    0 ≤ ((newChatState.startProcessingWithUserMessage
        "hi").resetRecursion).incrementRecursion.recursionDepth ∧
    ((newChatState.startProcessingWithUserMessage
        "hi").resetRecursion).incrementRecursion.recursionDepth ≤
      ((newChatState.startProcessingWithUserMessage
          "hi").resetRecursion).incrementRecursion.maxRecursionDepth :=
  recursion_invariant_C3.1 _
    (ReachableState.step
      (ReachableState.step ReachableState.init (OrchStep.userMessage newChatState "hi"))
      (OrchStep.apiCall _ (by decide)))

/-- Folding state transitions that leave the recursion counters alone leaves
the recursion counters alone. -/
theorem foldl_preserves_recursion {g : ChatState → ToolCallRef → ChatState}
    (h1 : ∀ s c, (g s c).recursionDepth = s.recursionDepth)
    (h2 : ∀ s c, (g s c).maxRecursionDepth = s.maxRecursionDepth) :
    ∀ (l : List ToolCallRef) (s : ChatState),
      (l.foldl g s).recursionDepth = s.recursionDepth ∧
      (l.foldl g s).maxRecursionDepth = s.maxRecursionDepth := by
  intro l
  induction l with
  | nil => intro s; exact ⟨rfl, rfl⟩
  | cons c rest ih =>
    intro s
    have hr := ih (g s c)
    exact ⟨hr.1.trans (h1 s c), hr.2.trans (h2 s c)⟩

/-- The tool phase of a round does not touch the recursion depth. -/
theorem recordRoundResults_depth (cs : ChatState) (tcs : List ToolCallRef)
    (resultOf : ToolCallRef → String) :
    (recordRoundResults cs tcs resultOf).recursionDepth = cs.recursionDepth ∧
    (recordRoundResults cs tcs resultOf).maxRecursionDepth = cs.maxRecursionDepth := by
  have h1 := foldl_preserves_recursion (g := fun s c => s.addPendingToolCall c.id)
    (fun s c => rfl) (fun s c => rfl) tcs cs
  have h2 := foldl_preserves_recursion
    (g := fun s c =>
      ((s.addToolResultMessage c.id c.name (resultOf c)).completePendingToolCall c.id).1)
    (fun s c => rfl) (fun s c => rfl) tcs
    (tcs.foldl (fun s c => s.addPendingToolCall c.id) cs)
  exact ⟨h2.1.trans h1.1, h2.2.trans h1.2⟩

/-- Under an API that always responds with tool calls (all of whose results
get recorded), `continueConversation` makes exactly
`(maxRecursionDepth - recursionDepth).toNat` further completion-API calls and
then finishes the round with the recursion-limit error. -/
theorem continueConversation_limit (api : Nat → ApiResult) (resultOf : ToolCallRef → String)
    (halways : ∀ n, ∃ choice choices,
      api n = .ok (choice :: choices) ∧ choice.toolCalls ≠ []) :
    ∀ (n : Nat) (cs : ChatState) (calls : Nat),
      (cs.maxRecursionDepth - cs.recursionDepth).toNat = n →
      (continueConversation true api resultOf cs calls).1 = calls + n ∧
      (continueConversation true api resultOf cs calls).2.lastError =
        some "maximum tool call recursion depth reached" ∧
      (continueConversation true api resultOf cs calls).2.isProcessing = false := by
  intro n
  induction n with
  | zero =>
    intro cs calls hn
    have hguard : cs.canRecurse = false := by
      simp only [ChatState.canRecurse, decide_eq_false_iff_not, not_lt]
      omega
    rw [continueConversation]
    simp only [hguard, Bool.true_eq_false, if_false, dite_true]
    exact ⟨rfl, rfl, rfl⟩
  | succ n ih =>
    intro cs calls hn
    have hlt : cs.recursionDepth < cs.maxRecursionDepth := by omega
    have hguard : ¬ cs.canRecurse = false := by
      simp only [ChatState.canRecurse, decide_eq_false_iff_not, not_lt, not_le]
      omega
    obtain ⟨choice, choices, happi, htc⟩ := halways calls
    rw [continueConversation]
    simp only [Bool.true_eq_false, if_false, hguard, dite_false, happi, List.head?_cons,
      htc, ne_eq, not_false_eq_true, or_true, if_true, List.isEmpty_eq_true, ite_false]
    have hrec := recordRoundResults_depth
      (cs.incrementRecursion.addAssistantMessageWithToolCalls choice.content choice.toolCalls)
      choice.toolCalls resultOf
    have hih := ih
      (recordRoundResults
        (cs.incrementRecursion.addAssistantMessageWithToolCalls choice.content choice.toolCalls)
        choice.toolCalls resultOf)
      (calls + 1)
      (by
        rw [hrec.1, hrec.2]
        have hd : (cs.incrementRecursion.addAssistantMessageWithToolCalls choice.content
            choice.toolCalls).recursionDepth = cs.recursionDepth + 1 := rfl
        have hm : (cs.incrementRecursion.addAssistantMessageWithToolCalls choice.content
            choice.toolCalls).maxRecursionDepth = cs.maxRecursionDepth := rfl
        rw [hd, hm]
        omega)
    refine ⟨?_, hih.2.1, hih.2.2⟩
    rw [hih.1]
    omega

/-- Claim C2: from a fresh conversation state (depth 0, `maxRecursionDepth`
5), an API whose every response carries tool calls (all of whose results get
recorded) is invoked exactly 5 times and then `continueConversation` finishes
the round with the recursion-limit error — a 6th invocation never occurs,
because `CanRecurse` is checked before each call and the depth is incremented
once per call. -/
theorem recursion_bound_C2 (api : Nat → ApiResult) (resultOf : ToolCallRef → String)
    (halways : ∀ n, ∃ choice choices,
      api n = .ok (choice :: choices) ∧ choice.toolCalls ≠ []) :
    (continueConversation true api resultOf newChatState 0).1 = 5 ∧
    (continueConversation true api resultOf newChatState 0).2.lastError =
      some "maximum tool call recursion depth reached" ∧
    (continueConversation true api resultOf newChatState 0).2.isProcessing = false := by
  have h := continueConversation_limit api resultOf halways 5 newChatState 0 rfl
  simpa using h

/-- Witness for C2: the constant one-tool-call API makes exactly 5 calls and
ends in the recursion-limit error. -/
theorem recursion_bound_C2_w :
    (continueConversation true wApi wResultOf newChatState 0).1 = 5 ∧
    (continueConversation true wApi wResultOf newChatState 0).2.lastError =
      some "maximum tool call recursion depth reached" ∧
    (continueConversation true wApi wResultOf newChatState 0).2.isProcessing = false :=
  recursion_bound_C2 wApi wResultOf
    (fun _ => ⟨⟨"", [⟨"id1", "time", "\x7b\x7d"⟩]⟩, [], rfl, by decide⟩)

end RoriCode
